import Mathlib

/-!
# Verification of the myshop-backend demo simulation engine

Shallow embedding of `myshop_backend/api/storage.py`: the time-driven
ingestion progress engine, the generation-job phase engine, selection
bookkeeping, finalization, and the save operations, together with the
view-layer result discrimination from `myshop_backend/api/views.py`.

Timestamps and elapsed durations are rationals (Python computes them as
float seconds via `total_seconds()`); Python `int()` truncation is
`pyInt`; Python dicts are association lists with insert-or-update;
statuses are the literal strings of the source.
-/

namespace MyShop

/-- Python `int(q)`: truncation toward zero. -/
def pyInt (q : ℚ) : Int := if q < 0 then -⌊-q⌋ else ⌊q⌋

/-- One ingestion step dict `{id, label, status}`. -/
structure Step where
  id : String
  label : String
  status : String
deriving DecidableEq

/-- One ingestion-scoped asset dict `{id, name, url, selected}`; the dicts
built by `_build_ingestion_assets` carry no `category` key, which
`group_id_from_asset` reads with `.get`, hence the `Option`. -/
structure IngAsset where
  id : String
  name : String
  url : String
  selected : Bool
  category : Option String := none
deriving DecidableEq

/-- An asset-group dict `{id, name, assets}`. -/
structure AssetGroup where
  id : String
  name : String
  assets : List IngAsset
deriving DecidableEq

/-- The `IngestionRecord` dataclass. `selected_asset_ids` is a Python set
of strings, modelled as the list whose membership is the set's. -/
structure IngestionRecord where
  id : String
  store_id : String
  status : String
  progress : Int
  steps : List Step
  estimated_seconds_remaining : Int
  started_at : ℚ
  selected_asset_ids : List String
  asset_groups : List AssetGroup
deriving DecidableEq

/-- A generation-job dict (poster or menu board): the fields the engine and
the save operations read. `headline` exists only on poster jobs. -/
structure Job where
  id : String
  status : String
  resultUrl : Option String := none
  error : Option String := none
  headline : Option String := none
  createdAt : ℚ
deriving DecidableEq

/-- A persisted asset dict in `DemoDataStore.assets`. -/
structure StoredAsset where
  id : String
  name : String
  url : String
  category : String
  storeId : String
deriving DecidableEq

/-- Lookup in a Python dict modelled as an association list. -/
def dictGet {α : Type} (m : List (String × α)) (key : String) : Option α :=
  (m.find? (fun p => p.1 = key)).map Prod.snd

/-- Assignment `m[key] = v` on a Python dict: update in place, or append a new key. -/
def dictInsert {α : Type} (m : List (String × α)) (key : String) (v : α) :
    List (String × α) :=
  if m.any (fun p => p.1 = key) then
    m.map (fun p => if p.1 = key then (key, v) else p)
  else m ++ [(key, v)]

/-- The mutable demo store: the fields of `DemoDataStore` the simulation
engine touches. `stores`, `style_refs` and `asset_library_id` are constants
of `__init__`, kept as top-level definitions. -/
structure DataStore where
  ingestions : List (String × IngestionRecord) := []
  assets : List (String × StoredAsset) := []
  user_store_links : List (Int × List String) := []
  poster_jobs : List (String × Job) := []
  menu_board_jobs : List (String × Job) := []
deriving DecidableEq

/-- The field `self.asset_library_id`, set once in `__init__`. -/
def asset_library_id : String := "library_default"

/-- The id `self.stores[0]["id"]` of the first seeded store. -/
def first_store_id : String := "s1"

/-- The step-duration sequence of `_refresh_ingestion_progress`. -/
def step_durations : List ℚ := [8, 10, 12, 20]

/-- Running cumulative sums: the loop building `progress_points`. -/
def cumulativeFrom (acc : ℚ) : List ℚ → List ℚ
  | [] => []
  | d :: rest => (acc + d) :: cumulativeFrom (acc + d) rest

/-- The list `progress_points` = `[8, 18, 30, 50]`. -/
def progress_points : List ℚ := cumulativeFrom 0 step_durations

/-- The value `total_time` = `progress_points[-1]` = 50. -/
def total_time : ℚ := progress_points.getLastD 0

/-- The step list `start_ingestion` creates. -/
def initial_steps : List Step :=
  [ { id := "collect_basics", label := "Collecting basic information", status := "in_progress" },
    { id := "find_logo", label := "Finding store logo", status := "pending" },
    { id := "catalog_products", label := "Cataloging products", status := "pending" },
    { id := "gather_photos", label := "Gathering photos", status := "pending" } ]

/-- The `base_images` list of `_build_ingestion_assets`. -/
def base_images : List String :=
  [ "https://images.unsplash.com/photo-1504674900247-0877df9cc836?q=80&w=800",
    "https://images.unsplash.com/photo-1509042239860-f550ce710b93?q=80&w=800",
    "https://images.unsplash.com/photo-1504674900247-0877df9cc836?q=80&w=800",
    "https://images.unsplash.com/photo-1487412720507-e7ab37603c6f?q=80&w=800" ]

/-- The `categories` list of `_build_ingestion_assets`. -/
def ing_categories : List (String × String) :=
  [("logo", "Store Logo"), ("menu", "Menu"),
   ("products", "Product Images"), ("interior", "Interior")]

/-- One asset dict of `_build_ingestion_assets`: category index `idx`,
variant 1 or 2; variant 1 starts selected. -/
def buildIngAsset (idx : Nat) (category_id name store_id : String)
    (variant : Nat) : IngAsset :=
  { id := category_id ++ "_" ++ toString variant ++ "_" ++ store_id
    name := name ++ " " ++ toString variant
    url := base_images.getD ((idx + variant) % base_images.length) ""
    selected := variant == 1 }

/-- Function `_build_ingestion_assets(store_id)`: two variants per category. -/
def _build_ingestion_assets (store_id : String) : List AssetGroup :=
  ing_categories.enum.map (fun p =>
    { id := p.2.1, name := p.2.2,
      assets := [1, 2].map (buildIngAsset p.1 p.2.1 p.2.2 store_id) })

/-- Function `start_ingestion(store_id)` as the record it stores: the generated uuid
and the clock reading are inputs of the model. -/
def start_ingestion (store_id ingestion_id : String) (now : ℚ) :
    IngestionRecord :=
  { id := ingestion_id
    store_id := store_id
    status := "in_progress"
    progress := 5
    steps := initial_steps
    estimated_seconds_remaining := 90
    started_at := now
    selected_asset_ids := []
    asset_groups := _build_ingestion_assets store_id }

/-- The step loop of `_refresh_ingestion_progress`: walk cutoffs in order;
a step whose cutoff has been reached becomes `completed`; at the first step
whose cutoff has not, a `pending` step becomes `in_progress` and the loop
breaks, leaving the remaining steps untouched. -/
def refreshSteps (elapsed : ℚ) : List Step → List ℚ → List Step
  | steps, [] => steps
  | [], _ => []
  | s :: rest, cutoff :: cutoffs =>
    if cutoff ≤ elapsed then
      { s with status := "completed" } :: refreshSteps elapsed rest cutoffs
    else if s.status = "pending" then
      { s with status := "in_progress" } :: rest
    else s :: rest

/-- Function `_refresh_ingestion_progress(record)`, reading the clock `now`. -/
def _refresh_ingestion_progress (record : IngestionRecord) (now : ℚ) :
    IngestionRecord :=
  if record.status ≠ "in_progress" then record
  else
    let elapsed := now - record.started_at
    let steps1 := refreshSteps elapsed record.steps progress_points
    if total_time ≤ elapsed then
      { record with
        status := "completed"
        progress := 100
        estimated_seconds_remaining := 0
        steps := steps1.map (fun s => { s with status := "completed" }) }
    else
      { record with
        steps := steps1
        progress := min 95 (pyInt (elapsed / total_time * 100))
        estimated_seconds_remaining := max 10 (pyInt (total_time - elapsed)) }

/-- Function `cancel_ingestion`, as the mutation applied to a found record. -/
def cancel_record (record : IngestionRecord) : IngestionRecord :=
  { record with
    status := "canceled"
    estimated_seconds_remaining := 0
    progress := min record.progress 80
    steps := record.steps.map (fun s =>
      if s.status = "in_progress" then { s with status := "canceled" } else s) }

/-- Function `record_selection`, as the mutation applied to a found record: replace the
selected-id set and re-derive every `selected` flag from membership. -/
def record_selection_rec (record : IngestionRecord) (selected_ids : List String) :
    IngestionRecord :=
  { record with
    selected_asset_ids := selected_ids
    asset_groups := record.asset_groups.map (fun g =>
      { g with assets := g.assets.map (fun a =>
          { a with selected := a.id ∈ selected_ids }) }) }

/-- Function `record_selection(ingestion_id, selected_ids)` on the store: `none` is
the `NotFound` signal; otherwise the updated store and the returned set. -/
def record_selection (s : DataStore) (ingestion_id : String)
    (selected_ids : List String) : Option (DataStore × List String) :=
  match dictGet s.ingestions ingestion_id with
  | none => none
  | some record =>
    let record1 := record_selection_rec record selected_ids
    some ({ s with ingestions := dictInsert s.ingestions ingestion_id record1 },
          record1.selected_asset_ids)

/-- Function `group_id_from_asset(asset)`: the asset's own (truthy) category if
present, else the prefix of its id before the first underscore, else
`"products"`. -/
def group_id_from_asset (a : IngAsset) : String :=
  match a.category with
  | some c => if c ≠ "" then c else
      if a.id.contains '_' then (a.id.splitOn "_").headD a.id else "products"
  | none =>
      if a.id.contains '_' then (a.id.splitOn "_").headD a.id else "products"

/-- The selection scan of `finalize_ingestion`: every asset, across all
groups, whose id is in `selected_asset_ids` or whose `selected` flag is
truthy. -/
def finalize_selected (record : IngestionRecord) : List IngAsset :=
  (record.asset_groups.map (fun g =>
    g.assets.filter (fun a =>
      decide (a.id ∈ record.selected_asset_ids) || a.selected))).flatten

/-- The persisted copy `finalize_ingestion` builds for one selected asset. -/
def promotedAsset (record : IngestionRecord) (a : IngAsset) : StoredAsset :=
  { id := a.id, name := a.name, url := a.url,
    category := group_id_from_asset a, storeId := record.store_id }

/-- Function `link_store(user_id, store_id)` on one user's link list. -/
def link_store_list (links : List String) (store_id : String) : List String :=
  if store_id ∈ links then links else links ++ [store_id]

/-- Function `link_store_for_asset(store_id)`: link the store to every user of
`user_store_links`. -/
def link_store_for_asset (links : List (Int × List String)) (store_id : String) :
    List (Int × List String) :=
  links.map (fun p => (p.1, link_store_list p.2 store_id))

/-- Function `finalize_ingestion(ingestion_id)`: `none` is `NotFound`; otherwise the
updated store and the returned `{assetLibraryId, totalAssets}` pair. -/
def finalize_ingestion (s : DataStore) (ingestion_id : String) :
    Option (DataStore × String × Nat) :=
  match dictGet s.ingestions ingestion_id with
  | none => none
  | some record =>
    let record1 : IngestionRecord :=
      { record with
        status := "completed"
        progress := 100
        estimated_seconds_remaining := 0
        steps := record.steps.map (fun st => { st with status := "completed" }) }
    let selected_assets := finalize_selected record
    let assets1 := selected_assets.foldl
      (fun m a => dictInsert m a.id (promotedAsset record a)) s.assets
    some ({ s with
            ingestions := dictInsert s.ingestions ingestion_id record1
            assets := assets1
            user_store_links := link_store_for_asset s.user_store_links record.store_id },
          asset_library_id, selected_assets.length)

/-- The record-level effect of `finalize_ingestion` on the found record. -/
def finalize_record (record : IngestionRecord) : IngestionRecord :=
  { record with
    status := "completed"
    progress := 100
    estimated_seconds_remaining := 0
    steps := record.steps.map (fun st => { st with status := "completed" }) }

/-- Function `get_ingestion(ingestion_id)`: lookup, then refresh as a side effect. -/
def get_ingestion (s : DataStore) (ingestion_id : String) (now : ℚ) :
    Option (DataStore × IngestionRecord) :=
  match dictGet s.ingestions ingestion_id with
  | none => none
  | some record =>
    let record1 := _refresh_ingestion_progress record now
    some ({ s with ingestions := dictInsert s.ingestions ingestion_id record1 },
          record1)

/-- Function `_progress_job(job, kind)`, reading the clock `now`: a no-op on a
terminal job; `kind` is never read. -/
def _progress_job (job : Job) (kind : String) (now : ℚ) : Job :=
  if job.status = "failed" ∨ job.status = "succeeded" then job
  else
    let elapsed := now - job.createdAt
    if 10 < elapsed then
      { job with
        status := "succeeded"
        resultUrl := some ("https://images.unsplash.com/photo-1504674900247-0877df9cc836?q=80&w=1200&"
          ++ job.id) }
    else if 2 < elapsed then { job with status := "running" }
    else { job with status := "queued" }

/-- Python string truthiness: `x or default` on an optional string. -/
def orDefault (x : Option String) (default : String) : String :=
  match x with
  | some v => if v ≠ "" then v else default
  | none => default

/-- The default url `create_asset` fills in when none is given. -/
def create_asset_default_url : String :=
  "https://images.unsplash.com/photo-1509042239860-f550ce710b93?q=80&w=900"

/-- Function `create_asset(name, category, store_id, asset_id, url=None)` as the
stored dict (the generated id is an input of the model). -/
def create_asset (name category store_id asset_id : String) : StoredAsset :=
  { id := asset_id, name := name, url := create_asset_default_url,
    category := category, storeId := store_id }

/-- The error string both save operations write. -/
def not_finished_error : String := "Job is not finished yet."

/-- The not-ready mutation both saves apply to a non-succeeded job. -/
def fail_job (job : Job) : Job :=
  { job with status := "failed", error := some not_finished_error }

/-- Function `save_poster_job(job_id)`: `none` both when the job is unknown and when
it is not ready (the view layer tells the two apart). -/
def save_poster_job (s : DataStore) (job_id new_asset_id : String) :
    DataStore × Option String :=
  match dictGet s.poster_jobs job_id with
  | none => (s, none)
  | some job =>
    if job.status ≠ "succeeded" then
      ({ s with poster_jobs := dictInsert s.poster_jobs job_id (fail_job job) },
       none)
    else
      let asset := create_asset (orDefault job.headline "Generated Poster")
        "poster" first_store_id new_asset_id
      ({ s with assets := dictInsert s.assets new_asset_id asset },
       some new_asset_id)

/-- Function `save_menu_board_job(job_id)`. -/
def save_menu_board_job (s : DataStore) (job_id new_asset_id : String) :
    DataStore × Option String :=
  match dictGet s.menu_board_jobs job_id with
  | none => (s, none)
  | some job =>
    if job.status ≠ "succeeded" then
      ({ s with menu_board_jobs := dictInsert s.menu_board_jobs job_id (fail_job job) },
       none)
    else
      let asset := create_asset "Menu Board" "menu" first_store_id new_asset_id
      ({ s with assets := dictInsert s.assets new_asset_id asset },
       some new_asset_id)

/-- The outcome the save views report to the caller. -/
inductive SaveOutcome where
  | notFound : SaveOutcome
  | notReady : SaveOutcome
  | saved : String → SaveOutcome
deriving DecidableEq

/-- View `PosterGenerationSaveView.post`: a membership probe distinguishes
`NotFound` from the not-ready `None` of `save_poster_job`. -/
def save_poster_view (s : DataStore) (job_id new_asset_id : String) :
    DataStore × SaveOutcome :=
  match dictGet s.poster_jobs job_id with
  | none => (s, SaveOutcome.notFound)
  | some _ =>
    match save_poster_job s job_id new_asset_id with
    | (s1, none) => (s1, SaveOutcome.notReady)
    | (s1, some aid) => (s1, SaveOutcome.saved aid)

/-- View `MenuBoardGenerationSaveView.post`. -/
def save_menu_board_view (s : DataStore) (job_id new_asset_id : String) :
    DataStore × SaveOutcome :=
  match dictGet s.menu_board_jobs job_id with
  | none => (s, SaveOutcome.notFound)
  | some _ =>
    match save_menu_board_job s job_id new_asset_id with
    | (s1, none) => (s1, SaveOutcome.notReady)
    | (s1, some aid) => (s1, SaveOutcome.saved aid)

/-- One record-level operation of the ingestion lifecycle: the mutations a
stored record can undergo after `start_ingestion`. -/
inductive Op where
  | recompute (now : ℚ) : Op
  | cancel : Op
  | select (ids : List String) : Op
  | finalize : Op

/-- Apply one operation to a record. -/
def applyOp (record : IngestionRecord) : Op → IngestionRecord
  | Op.recompute now => _refresh_ingestion_progress record now
  | Op.cancel => cancel_record record
  | Op.select ids => record_selection_rec record ids
  | Op.finalize => finalize_record record

/-- Apply a sequence of operations in order. -/
def applyOps (record : IngestionRecord) (ops : List Op) : IngestionRecord :=
  ops.foldl applyOp record

/-- The per-asset `selected` flags agree with `selected_asset_ids`
membership across every group: the representation-sync predicate of the
data model. -/
def selectionInSync (record : IngestionRecord) : Bool :=
  record.asset_groups.all (fun g => g.assets.all (fun a =>
    a.selected == decide (a.id ∈ record.selected_asset_ids)))

/-- How many steps are currently `in_progress`. -/
def countInProgress (steps : List Step) : Nat :=
  (steps.filter (fun s => s.status = "in_progress")).length

/-! ## General lemmas about the embedding's building blocks -/

theorem pyInt_of_nonneg {q : ℚ} (h : 0 ≤ q) : pyInt q = ⌊q⌋ := by
  unfold pyInt
  rw [if_neg (not_lt.mpr h)]

theorem pyInt_mono {p q : ℚ} (h : p ≤ q) : pyInt p ≤ pyInt q := by
  unfold pyInt
  by_cases hp : p < 0
  · by_cases hq : q < 0
    · rw [if_pos hp, if_pos hq]
      have := Int.floor_le_floor (neg_le_neg h)
      omega
    · rw [if_pos hp, if_neg hq]
      have h1 : (0 : Int) ≤ ⌊-p⌋ := Int.floor_nonneg.mpr (by linarith)
      have h2 : (0 : Int) ≤ ⌊q⌋ := Int.floor_nonneg.mpr (by linarith)
      omega
  · rw [if_neg hp, if_neg (by push_neg at hp ⊢; linarith : ¬ q < 0)]
    exact Int.floor_le_floor h

theorem progress_points_eq : progress_points = [8, 18, 30, 50] := by
  norm_num [progress_points, step_durations, cumulativeFrom]

theorem total_time_eq : total_time = 50 := by
  rw [total_time, progress_points_eq]
  rfl

theorem dictGet_nil {α : Type} (k : String) :
    dictGet ([] : List (String × α)) k = none := rfl

theorem dictGet_cons {α : Type} (p : String × α) (rest : List (String × α))
    (k : String) :
    dictGet (p :: rest) k = if p.1 = k then some p.2 else dictGet rest k := by
  by_cases hp : p.1 = k
  · simp [dictGet, List.find?, hp]
  · simp [dictGet, List.find?, hp]

theorem dictGet_append {α : Type} (m1 m2 : List (String × α)) (k : String) :
    dictGet (m1 ++ m2) k =
      match dictGet m1 k with
      | some v => some v
      | none => dictGet m2 k := by
  induction m1 with
  | nil => simp [dictGet_nil]
  | cons p rest ih =>
    by_cases hp : p.1 = k
    · simp [dictGet_cons, hp]
    · simpa [dictGet_cons, hp] using ih

theorem dictGet_map_update_self {α : Type} (m : List (String × α))
    (k : String) (v : α) (h : m.any (fun p => p.1 = k) = true) :
    dictGet (m.map (fun p => if p.1 = k then (k, v) else p)) k = some v := by
  induction m with
  | nil => simp at h
  | cons p rest ih =>
    by_cases hp : p.1 = k
    · simp [dictGet_cons, hp]
    · have hrest : rest.any (fun q => q.1 = k) = true := by
        simp only [List.any_cons, Bool.or_eq_true, decide_eq_true_eq] at h
        exact Or.resolve_left h hp
      simpa [dictGet_cons, hp] using ih hrest

theorem dictGet_map_update_ne {α : Type} (m : List (String × α))
    (k k' : String) (v : α) (h : k' ≠ k) :
    dictGet (m.map (fun p => if p.1 = k then (k, v) else p)) k' = dictGet m k' := by
  induction m with
  | nil => simp [dictGet_nil]
  | cons p rest ih =>
    by_cases hp : p.1 = k
    · have h1 : ¬ (k = k') := fun hk => h hk.symm
      have h2 : ¬ (p.1 = k') := by rw [hp]; exact h1
      simp only [List.map_cons, if_pos hp, dictGet_cons, if_neg h1, if_neg h2]
      exact ih
    · simp only [List.map_cons, if_neg hp, dictGet_cons]
      rw [ih]

theorem dictGet_dictInsert_self {α : Type} (m : List (String × α))
    (k : String) (v : α) : dictGet (dictInsert m k v) k = some v := by
  unfold dictInsert
  by_cases h : m.any (fun p => p.1 = k)
  · rw [if_pos h]
    exact dictGet_map_update_self m k v h
  · rw [if_neg h]
    have hnone : dictGet m k = none := by
      induction m with
      | nil => rfl
      | cons p rest ih =>
        have hp : ¬ p.1 = k := fun hk => h (by simp [List.any_cons, hk])
        have hrest : ¬ rest.any (fun q => q.1 = k) = true := by
          intro hk
          exact h (by simp [List.any_cons, hk])
        rw [dictGet_cons, if_neg hp]
        exact ih hrest
    rw [dictGet_append, hnone]
    simp [dictGet_cons]

theorem dictGet_dictInsert_ne {α : Type} (m : List (String × α))
    (k k' : String) (v : α) (h : k' ≠ k) :
    dictGet (dictInsert m k v) k' = dictGet m k' := by
  unfold dictInsert
  by_cases hm : m.any (fun p => p.1 = k)
  · rw [if_pos hm]
    exact dictGet_map_update_ne m k k' v h
  · rw [if_neg hm, dictGet_append]
    cases hv : dictGet m k' with
    | some w => rfl
    | none => simp [dictGet_cons, dictGet_nil, Ne.symm h]

/-! ## C6: generation-job phase transitions -/

/-- The deterministic result url `_progress_job` writes on success. -/
def job_result_url (job_id : String) : String :=
  "https://images.unsplash.com/photo-1504674900247-0877df9cc836?q=80&w=1200&" ++ job_id

/-- C6. For every poster or menu-board job, recompute at `now` with
`elapsed = now - createdAt`: on a non-terminal job the result status is
`succeeded` iff `elapsed > 10` (with the result url derived from the job
id), `running` iff `2 < elapsed ≤ 10`, and `queued` iff `elapsed ≤ 2`;
recompute is a no-op once the status is `succeeded` or `failed` (so later
recomputes never change `resultUrl`); and the thresholds do not depend on
the job kind. -/
theorem C6_job_phases (job : Job) (kind kind2 : String) (now : ℚ) :
    (_progress_job job kind now = _progress_job job kind2 now) ∧
    (job.status = "succeeded" ∨ job.status = "failed" →
      _progress_job job kind now = job) ∧
    (job.status ≠ "succeeded" → job.status ≠ "failed" →
      ((_progress_job job kind now).status = "succeeded" ↔
        10 < now - job.createdAt) ∧
      ((_progress_job job kind now).status = "running" ↔
        2 < now - job.createdAt ∧ now - job.createdAt ≤ 10) ∧
      ((_progress_job job kind now).status = "queued" ↔
        now - job.createdAt ≤ 2) ∧
      (10 < now - job.createdAt →
        (_progress_job job kind now).resultUrl = some (job_result_url job.id))) := by
  refine ⟨rfl, ?_, ?_⟩
  · rintro (h | h)
    · unfold _progress_job
      rw [if_pos (Or.inr h)]
    · unfold _progress_job
      rw [if_pos (Or.inl h)]
  · intro hs hf
    have hterm : ¬ (job.status = "failed" ∨ job.status = "succeeded") := by
      rintro (h | h)
      · exact hf h
      · exact hs h
    unfold _progress_job
    rw [if_neg hterm]
    by_cases h10 : 10 < now - job.createdAt
    · rw [if_pos h10]
      refine ⟨iff_of_true rfl h10, ?_, ?_, fun _ => rfl⟩
      · exact iff_of_false (by simp) (fun hc => absurd hc.2 (not_le.mpr h10))
      · exact iff_of_false (by simp)
          (fun hc => absurd h10 (not_lt.mpr (hc.trans (by norm_num))))
    · rw [if_neg h10]
      by_cases h2 : 2 < now - job.createdAt
      · rw [if_pos h2]
        refine ⟨iff_of_false (by simp) h10, ?_, ?_, fun hgt => absurd hgt h10⟩
        · exact iff_of_true rfl ⟨h2, le_of_not_lt h10⟩
        · exact iff_of_false (by simp) (not_le.mpr h2)
      · rw [if_neg h2]
        refine ⟨iff_of_false (by simp) h10, ?_, ?_, fun hgt => absurd hgt h10⟩
        · exact iff_of_false (by simp) (fun hc => absurd hc.1 h2)
        · exact iff_of_true rfl (le_of_not_lt h2)

/-! ## C7 and C10: the save operations -/

/-- C7. SaveJob on an unknown id is `NotFound` with no state change; on a
job stored as `succeeded` it persists a new asset (name and category by
job kind: headline-or-default/"poster" for posters, "Menu Board"/"menu"
for menu boards) and reports its id; on any other stored status it marks
the job `failed` with the not-finished error, leaves `resultUrl` as it
was, and reports `NotReady`. -/
theorem C7_save_job (s : DataStore) (job_id new_id : String) :
    (dictGet s.poster_jobs job_id = none →
      save_poster_view s job_id new_id = (s, SaveOutcome.notFound)) ∧
    (∀ job, dictGet s.poster_jobs job_id = some job →
      (job.status = "succeeded" →
        save_poster_view s job_id new_id =
          ({ s with assets := dictInsert s.assets new_id
                      (create_asset (orDefault job.headline "Generated Poster")
                        "poster" first_store_id new_id) },
           SaveOutcome.saved new_id)) ∧
      (job.status ≠ "succeeded" →
        save_poster_view s job_id new_id =
          ({ s with poster_jobs := dictInsert s.poster_jobs job_id (fail_job job) },
           SaveOutcome.notReady) ∧
        (fail_job job).status = "failed" ∧
        (fail_job job).error = some not_finished_error ∧
        (fail_job job).resultUrl = job.resultUrl)) ∧
    (dictGet s.menu_board_jobs job_id = none →
      save_menu_board_view s job_id new_id = (s, SaveOutcome.notFound)) ∧
    (∀ job, dictGet s.menu_board_jobs job_id = some job →
      (job.status = "succeeded" →
        save_menu_board_view s job_id new_id =
          ({ s with assets := dictInsert s.assets new_id
                      (create_asset "Menu Board" "menu" first_store_id new_id) },
           SaveOutcome.saved new_id)) ∧
      (job.status ≠ "succeeded" →
        save_menu_board_view s job_id new_id =
          ({ s with menu_board_jobs := dictInsert s.menu_board_jobs job_id (fail_job job) },
           SaveOutcome.notReady) ∧
        (fail_job job).status = "failed" ∧
        (fail_job job).error = some not_finished_error ∧
        (fail_job job).resultUrl = job.resultUrl)) := by
  refine ⟨?_, ?_, ?_, ?_⟩
  · intro h
    unfold save_poster_view
    rw [h]
  · intro job hjob
    constructor
    · intro hsucc
      unfold save_poster_view save_poster_job
      rw [hjob]
      dsimp only
      rw [if_neg (by simpa using hsucc)]
    · intro hne
      refine ⟨?_, rfl, rfl, rfl⟩
      unfold save_poster_view save_poster_job
      rw [hjob]
      dsimp only
      rw [if_pos hne]
  · intro h
    unfold save_menu_board_view
    rw [h]
  · intro job hjob
    constructor
    · intro hsucc
      unfold save_menu_board_view save_menu_board_job
      rw [hjob]
      dsimp only
      rw [if_neg (by simpa using hsucc)]
    · intro hne
      refine ⟨?_, rfl, rfl, rfl⟩
      unfold save_menu_board_view save_menu_board_job
      rw [hjob]
      dsimp only
      rw [if_pos hne]

/-- C10. The save operations decide on the stored status only: a job whose
elapsed time is already past the 10-second success threshold but which was
never refreshed (status still `queued` or `running`) is marked `failed`
and reported `NotReady` rather than promoted, and the phase engine never
leaves `failed` afterwards, at any later time and for either job kind. -/
theorem C10_save_ignores_elapsed (s : DataStore) (job_id new_id : String)
    (job : Job) (now t : ℚ) (kind : String) :
    (dictGet s.poster_jobs job_id = some job →
      (job.status = "queued" ∨ job.status = "running") →
      10 < now - job.createdAt →
      (save_poster_view s job_id new_id).2 = SaveOutcome.notReady ∧
      dictGet (save_poster_view s job_id new_id).1.poster_jobs job_id =
        some (fail_job job) ∧
      (fail_job job).status = "failed" ∧
      _progress_job (fail_job job) kind t = fail_job job) ∧
    (dictGet s.menu_board_jobs job_id = some job →
      (job.status = "queued" ∨ job.status = "running") →
      10 < now - job.createdAt →
      (save_menu_board_view s job_id new_id).2 = SaveOutcome.notReady ∧
      dictGet (save_menu_board_view s job_id new_id).1.menu_board_jobs job_id =
        some (fail_job job) ∧
      (fail_job job).status = "failed" ∧
      _progress_job (fail_job job) kind t = fail_job job) := by
  constructor
  · intro hjob hqr hlate
    have hne : job.status ≠ "succeeded" := by
      rcases hqr with h | h <;> rw [h] <;> simp
    have heq : save_poster_view s job_id new_id =
        ({ s with poster_jobs := dictInsert s.poster_jobs job_id (fail_job job) },
         SaveOutcome.notReady) := by
      unfold save_poster_view save_poster_job
      rw [hjob]
      dsimp only
      rw [if_pos hne]
    refine ⟨by rw [heq], ?_, rfl, ?_⟩
    · rw [heq]
      exact dictGet_dictInsert_self _ _ _
    · unfold _progress_job
      rw [if_pos (show (fail_job job).status = "failed" ∨ (fail_job job).status = "succeeded" from Or.inl rfl)]
  · intro hjob hqr hlate
    have hne : job.status ≠ "succeeded" := by
      rcases hqr with h | h <;> rw [h] <;> simp
    have heq : save_menu_board_view s job_id new_id =
        ({ s with menu_board_jobs := dictInsert s.menu_board_jobs job_id (fail_job job) },
         SaveOutcome.notReady) := by
      unfold save_menu_board_view save_menu_board_job
      rw [hjob]
      dsimp only
      rw [if_pos hne]
    refine ⟨by rw [heq], ?_, rfl, ?_⟩
    · rw [heq]
      exact dictGet_dictInsert_self _ _ _
    · unfold _progress_job
      rw [if_pos (show (fail_job job).status = "failed" ∨ (fail_job job).status = "succeeded" from Or.inl rfl)]

/-! ## C8 and C9: selection bookkeeping -/

theorem selectionInSync_record_selection_rec (record : IngestionRecord)
    (ids : List String) :
    selectionInSync (record_selection_rec record ids) = true := by
  unfold selectionInSync record_selection_rec
  simp [List.all_eq_true]

theorem selectionInSync_congr (r1 r2 : IngestionRecord)
    (hg : r1.asset_groups = r2.asset_groups)
    (hi : r1.selected_asset_ids = r2.selected_asset_ids) :
    selectionInSync r1 = selectionInSync r2 := by
  unfold selectionInSync
  rw [hg, hi]

theorem refresh_keeps_selection (record : IngestionRecord) (now : ℚ) :
    (_refresh_ingestion_progress record now).asset_groups = record.asset_groups ∧
    (_refresh_ingestion_progress record now).selected_asset_ids =
      record.selected_asset_ids := by
  unfold _refresh_ingestion_progress
  by_cases hs : record.status ≠ "in_progress"
  · rw [if_pos hs]
    exact ⟨rfl, rfl⟩
  · rw [if_neg hs]
    dsimp only
    by_cases ht : total_time ≤ now - record.started_at
    · rw [if_pos ht]
      exact ⟨rfl, rfl⟩
    · rw [if_neg ht]
      exact ⟨rfl, rfl⟩

theorem selectionInSync_applyOp (record : IngestionRecord) (op : Op)
    (h : selectionInSync record = true) :
    selectionInSync (applyOp record op) = true := by
  cases op with
  | recompute now =>
    have hk := refresh_keeps_selection record now
    calc selectionInSync (applyOp record (Op.recompute now))
        = selectionInSync record := selectionInSync_congr _ _ hk.1 hk.2
      _ = true := h
  | cancel =>
    calc selectionInSync (applyOp record Op.cancel)
        = selectionInSync record := selectionInSync_congr _ _ rfl rfl
      _ = true := h
  | select ids => exact selectionInSync_record_selection_rec record ids
  | finalize =>
    calc selectionInSync (applyOp record Op.finalize)
        = selectionInSync record := selectionInSync_congr _ _ rfl rfl
      _ = true := h

theorem selectionInSync_applyOps (ops : List Op) (record : IngestionRecord)
    (h : selectionInSync record = true) :
    selectionInSync (applyOps record ops) = true := by
  induction ops generalizing record with
  | nil => exact h
  | cons op rest ih => exact ih _ (selectionInSync_applyOp record op h)

/-- C8 (amended). From the first `record_selection` on, the per-asset
`selected` flags agree with membership in `selected_asset_ids` across all
groups, and every later mutation (recompute, cancel, a further selection,
finalize) preserves the agreement. (`start_ingestion` alone violates it:
see the counterexample.) -/
theorem C8_selection_sync (record : IngestionRecord) (ids : List String)
    (ops : List Op) :
    selectionInSync (applyOps (record_selection_rec record ids) ops) = true :=
  selectionInSync_applyOps ops _ (selectionInSync_record_selection_rec record ids)

/-- C8 counterexample. Directly after `start_ingestion` the two
representations disagree: each category's variant-1 asset carries
`selected = true` while `selected_asset_ids` is still empty. -/
theorem C8_counterexample :
    selectionInSync (start_ingestion "s1" "ing_c8" 0) = false ∧
    (start_ingestion "s1" "ing_c8" 0).selected_asset_ids = [] := by
  constructor
  · decide
  · rfl

/-- C9. `record_selection` on a known ingestion replaces the selected-id
set wholesale with the given ids (membership is exactly membership in the
new list, independent of the previous selection), re-derives every asset's
flag from membership, stores the updated record and returns the new set;
an unknown ingestion id yields `NotFound` and no other record changes. -/
theorem C9_record_selection (s : DataStore) (iid : String) (ids : List String) :
    (dictGet s.ingestions iid = none → record_selection s iid ids = none) ∧
    (∀ record, dictGet s.ingestions iid = some record →
      ∃ s1, record_selection s iid ids = some (s1, ids) ∧
        dictGet s1.ingestions iid = some (record_selection_rec record ids) ∧
        (record_selection_rec record ids).selected_asset_ids = ids ∧
        selectionInSync (record_selection_rec record ids) = true ∧
        (∀ k, k ≠ iid → dictGet s1.ingestions k = dictGet s.ingestions k)) := by
  constructor
  · intro h
    unfold record_selection
    rw [h]
  · intro record h
    refine ⟨{ s with
              ingestions := dictInsert s.ingestions iid
                              (record_selection_rec record ids) }, ?_, ?_, rfl,
      selectionInSync_record_selection_rec record ids, ?_⟩
    · unfold record_selection
      rw [h]
      rfl
    · exact dictGet_dictInsert_self _ _ _
    · intro k hk
      exact dictGet_dictInsert_ne _ _ _ _ hk

/-! ## C1, C4, C5: the ingestion progress engine -/

/-- A step marked `completed`. -/
def completeStep (s : Step) : Step := { s with status := "completed" }

/-- The pending-to-in_progress transition of the first unreached step. -/
def promoteStep (s : Step) : Step :=
  if s.status = "pending" then { s with status := "in_progress" } else s

theorem refresh_frozen (record : IngestionRecord) (now : ℚ)
    (h : record.status ≠ "in_progress") :
    _refresh_ingestion_progress record now = record := by
  unfold _refresh_ingestion_progress
  rw [if_pos h]

/-- C1 (amended). For an `in_progress` record with the four steps
`[a,b,c,d]` and `elapsed = now - startedAt ≥ 0`: every step whose
cumulative cutoff (8, 18, 30, 50) has been reached is `completed`, the
first step whose cutoff has not been reached moves from `pending` to
`in_progress` (only if still pending) and the later steps are untouched;
at `elapsed ≥ 50` the record becomes `completed` with progress 100, ETA 0
and every step `completed`; otherwise
`progress = min(95, floor(elapsed/50*100))` and
`ETA = max(10, floor(50 - elapsed))` — the ETA uses Python `int()`
truncation (floor here), not the ceiling the claim stated. -/
theorem C1_refresh_progress (record : IngestionRecord) (now : ℚ) (a b c d : Step)
    (hstat : record.status = "in_progress")
    (hsteps : record.steps = [a, b, c, d])
    (h0 : record.started_at ≤ now) :
    (now - record.started_at < 8 →
      (_refresh_ingestion_progress record now).steps = [promoteStep a, b, c, d]) ∧
    (8 ≤ now - record.started_at → now - record.started_at < 18 →
      (_refresh_ingestion_progress record now).steps =
        [completeStep a, promoteStep b, c, d]) ∧
    (18 ≤ now - record.started_at → now - record.started_at < 30 →
      (_refresh_ingestion_progress record now).steps =
        [completeStep a, completeStep b, promoteStep c, d]) ∧
    (30 ≤ now - record.started_at → now - record.started_at < 50 →
      (_refresh_ingestion_progress record now).steps =
        [completeStep a, completeStep b, completeStep c, promoteStep d]) ∧
    (50 ≤ now - record.started_at →
      (_refresh_ingestion_progress record now).status = "completed" ∧
      (_refresh_ingestion_progress record now).progress = 100 ∧
      (_refresh_ingestion_progress record now).estimated_seconds_remaining = 0 ∧
      (_refresh_ingestion_progress record now).steps =
        [completeStep a, completeStep b, completeStep c, completeStep d]) ∧
    (now - record.started_at < 50 →
      (_refresh_ingestion_progress record now).status = "in_progress" ∧
      (_refresh_ingestion_progress record now).progress =
        min 95 ⌊(now - record.started_at) / 50 * 100⌋ ∧
      (_refresh_ingestion_progress record now).estimated_seconds_remaining =
        max 10 ⌊50 - (now - record.started_at)⌋) := by
  have hns : ¬ record.status ≠ "in_progress" := by
    rw [hstat]
    simp
  have he0 : 0 ≤ now - record.started_at := by linarith
  unfold _refresh_ingestion_progress
  rw [if_neg hns]
  dsimp only
  rw [hsteps, progress_points_eq, total_time_eq]
  refine ⟨?_, ?_, ?_, ?_, ?_, ?_⟩
  · intro h8
    rw [if_neg (by linarith : ¬ (50:ℚ) ≤ now - record.started_at)]
    show refreshSteps (now - record.started_at) [a, b, c, d] [8, 18, 30, 50] = _
    simp only [refreshSteps]
    rw [if_neg (by linarith : ¬ (8:ℚ) ≤ now - record.started_at)]
    unfold promoteStep
    split <;> rfl
  · intro h8 h18
    rw [if_neg (by linarith : ¬ (50:ℚ) ≤ now - record.started_at)]
    show refreshSteps (now - record.started_at) [a, b, c, d] [8, 18, 30, 50] = _
    simp only [refreshSteps]
    rw [if_pos h8, if_neg (by linarith : ¬ (18:ℚ) ≤ now - record.started_at)]
    unfold promoteStep completeStep
    split <;> rfl
  · intro h18 h30
    rw [if_neg (by linarith : ¬ (50:ℚ) ≤ now - record.started_at)]
    show refreshSteps (now - record.started_at) [a, b, c, d] [8, 18, 30, 50] = _
    simp only [refreshSteps]
    rw [if_pos (by linarith : (8:ℚ) ≤ now - record.started_at), if_pos h18,
      if_neg (by linarith : ¬ (30:ℚ) ≤ now - record.started_at)]
    unfold promoteStep completeStep
    split <;> rfl
  · intro h30 h50
    rw [if_neg (by linarith : ¬ (50:ℚ) ≤ now - record.started_at)]
    show refreshSteps (now - record.started_at) [a, b, c, d] [8, 18, 30, 50] = _
    simp only [refreshSteps]
    rw [if_pos (by linarith : (8:ℚ) ≤ now - record.started_at),
      if_pos (by linarith : (18:ℚ) ≤ now - record.started_at), if_pos h30,
      if_neg (by linarith : ¬ (50:ℚ) ≤ now - record.started_at)]
    unfold promoteStep completeStep
    split <;> rfl
  · intro h50
    rw [if_pos h50]
    refine ⟨rfl, rfl, rfl, ?_⟩
    show (refreshSteps (now - record.started_at) [a, b, c, d] [8, 18, 30, 50]).map _ = _
    simp only [refreshSteps]
    rw [if_pos (by linarith : (8:ℚ) ≤ now - record.started_at),
      if_pos (by linarith : (18:ℚ) ≤ now - record.started_at),
      if_pos (by linarith : (30:ℚ) ≤ now - record.started_at), if_pos h50]
    rfl
  · intro h50
    rw [if_neg (by linarith : ¬ (50:ℚ) ≤ now - record.started_at)]
    refine ⟨hstat, ?_, ?_⟩
    · show min 95 (pyInt ((now - record.started_at) / 50 * 100)) = _
      rw [pyInt_of_nonneg (by positivity)]
    · show max 10 (pyInt (50 - (now - record.started_at))) = _
      rw [pyInt_of_nonneg (by linarith)]

/-- C1 counterexample. At `elapsed = 1/2` the code stores
`ETA = max(10, int(49.5)) = 49`, while the claim's
`max(10, ceil(50 - elapsed))` is `50`. -/
theorem C1_counterexample :
    (_refresh_ingestion_progress (start_ingestion "s1" "ing_c1" 0) (1/2)).estimated_seconds_remaining
        = 49 ∧
    max 10 ⌈total_time - ((1:ℚ)/2 - (start_ingestion "s1" "ing_c1" 0).started_at)⌉ = 50 := by
  constructor
  · have hns : ¬ (start_ingestion "s1" "ing_c1" 0).status ≠ "in_progress" := by
      simp [start_ingestion]
    unfold _refresh_ingestion_progress
    rw [if_neg hns]
    dsimp only
    rw [total_time_eq]
    rw [if_neg (by norm_num [start_ingestion] :
      ¬ (50:ℚ) ≤ (1:ℚ)/2 - (start_ingestion "s1" "ing_c1" 0).started_at)]
    show max 10 (pyInt (50 - ((1:ℚ)/2 - (start_ingestion "s1" "ing_c1" 0).started_at))) = 49
    have hsa : (start_ingestion "s1" "ing_c1" 0).started_at = 0 := rfl
    rw [hsa, pyInt_of_nonneg (by norm_num)]
    norm_num
  · have hsa : (start_ingestion "s1" "ing_c1" 0).started_at = 0 := rfl
    rw [hsa, total_time_eq]
    have hc : ⌈(50:ℚ) - ((1:ℚ)/2 - 0)⌉ = 50 := by
      rw [Int.ceil_eq_iff]
      norm_num
    rw [hc]
    decide

/-- C1 witness: at elapsed 9 the first step is completed and the second
has been promoted from pending to in_progress, the later steps untouched. -/
theorem C1_witness :
    (_refresh_ingestion_progress (start_ingestion "s1" "w1" 0) 9).steps =
      [completeStep { id := "collect_basics", label := "Collecting basic information", status := "in_progress" },
       promoteStep { id := "find_logo", label := "Finding store logo", status := "pending" },
       { id := "catalog_products", label := "Cataloging products", status := "pending" },
       { id := "gather_photos", label := "Gathering photos", status := "pending" }] :=
  (C1_refresh_progress (start_ingestion "s1" "w1" 0) 9 _ _ _ _ rfl rfl
      (by norm_num : (0:ℚ) ≤ 9)).2.1
    (by norm_num : (8:ℚ) ≤ 9 - 0) (by norm_num : (9:ℚ) - 0 < 18)

/-- C4 (amended). The progress observed after successive recomputes at
nondecreasing times never decreases; the initial progress 5 written by
`start_ingestion` is however not a lower bound for the first observation
(see the counterexample). -/
theorem C4_progress_monotone (record : IngestionRecord) (t1 t2 : ℚ)
    (h12 : t1 ≤ t2) :
    (_refresh_ingestion_progress record t1).progress ≤
      (_refresh_ingestion_progress (_refresh_ingestion_progress record t1) t2).progress := by
  by_cases hs : record.status = "in_progress"
  · have hns : ¬ record.status ≠ "in_progress" := by
      rw [hs]
      simp
    by_cases h1 : total_time ≤ t1 - record.started_at
    · have hr1 : _refresh_ingestion_progress record t1 =
          { record with
            status := "completed"
            progress := 100
            estimated_seconds_remaining := 0
            steps := (refreshSteps (t1 - record.started_at) record.steps
                        progress_points).map (fun s => { s with status := "completed" }) } := by
        unfold _refresh_ingestion_progress
        rw [if_neg hns]
        dsimp only
        rw [if_pos h1]
      rw [hr1, refresh_frozen _ t2 (by simp)]
    · have hr1 : _refresh_ingestion_progress record t1 =
          { record with
            steps := refreshSteps (t1 - record.started_at) record.steps progress_points
            progress := min 95 (pyInt ((t1 - record.started_at) / total_time * 100))
            estimated_seconds_remaining :=
              max 10 (pyInt (total_time - (t1 - record.started_at))) } := by
        unfold _refresh_ingestion_progress
        rw [if_neg hns]
        dsimp only
        rw [if_neg h1]
      rw [hr1]
      by_cases h2 : total_time ≤ t2 - record.started_at
      · unfold _refresh_ingestion_progress
        rw [if_neg hns]
        dsimp only
        rw [if_pos h2]
        calc min 95 (pyInt ((t1 - record.started_at) / total_time * 100)) ≤ 95 :=
              min_le_left _ _
          _ ≤ 100 := by norm_num
      · unfold _refresh_ingestion_progress
        rw [if_neg hns]
        dsimp only
        rw [if_neg h2]
        refine min_le_min le_rfl (pyInt_mono ?_)
        rw [total_time_eq]
        have h12' : t1 - record.started_at ≤ t2 - record.started_at := by linarith
        linarith
  · rw [refresh_frozen record t1 hs, refresh_frozen record t2 hs]

/-- C4 witness: a concrete monotone pair of observations. -/
theorem C4_witness :
    (_refresh_ingestion_progress (start_ingestion "s1" "w4" 0) 6).progress ≤
      (_refresh_ingestion_progress
        (_refresh_ingestion_progress (start_ingestion "s1" "w4" 0) 6) 9).progress :=
  C4_progress_monotone (start_ingestion "s1" "w4" 0) 6 9 (by norm_num)

/-- C4 counterexample. `start_ingestion` writes progress 5, and the very
first recompute (at elapsed 1s) lowers it to `min(95, int(1/50*100)) = 2`:
the progress of an `in_progress` record does decrease below its initial 5. -/
theorem C4_counterexample :
    (start_ingestion "s1" "ing_c4" 0).progress = 5 ∧
    (start_ingestion "s1" "ing_c4" 0).status = "in_progress" ∧
    (_refresh_ingestion_progress (start_ingestion "s1" "ing_c4" 0) 1).progress = 2 ∧
    (_refresh_ingestion_progress (start_ingestion "s1" "ing_c4" 0) 1).progress <
      (start_ingestion "s1" "ing_c4" 0).progress := by
  have hp : (_refresh_ingestion_progress (start_ingestion "s1" "ing_c4" 0) 1).progress = 2 := by
    have hns : ¬ (start_ingestion "s1" "ing_c4" 0).status ≠ "in_progress" := by
      simp [start_ingestion]
    unfold _refresh_ingestion_progress
    rw [if_neg hns]
    dsimp only
    rw [total_time_eq]
    rw [if_neg (by norm_num [start_ingestion] :
      ¬ (50:ℚ) ≤ (1:ℚ) - (start_ingestion "s1" "ing_c4" 0).started_at)]
    show min 95 (pyInt ((1 - (start_ingestion "s1" "ing_c4" 0).started_at) / 50 * 100)) = 2
    have hsa : (start_ingestion "s1" "ing_c4" 0).started_at = 0 := rfl
    rw [hsa, pyInt_of_nonneg (by norm_num)]
    norm_num
  refine ⟨rfl, rfl, hp, ?_⟩
  rw [hp]
  norm_num [start_ingestion]

/-- C5 (amended). Observed at any `0 ≤ elapsed < 8` after start, the first
step is `in_progress` and the others `pending`; the observed progress lies
in `[0, 16)` — not `[5, 16)` as claimed, since the recompute overwrites the
initial 5 with `min(95, floor(2·elapsed))`, which is below 5 for
`elapsed < 2.5`. -/
theorem C5_early_phase (store_id ingestion_id : String) (t0 e : ℚ)
    (h0 : 0 ≤ e) (h8 : e < 8) :
    ((_refresh_ingestion_progress (start_ingestion store_id ingestion_id t0)
        (t0 + e)).steps.map Step.status =
      ["in_progress", "pending", "pending", "pending"]) ∧
    0 ≤ (_refresh_ingestion_progress (start_ingestion store_id ingestion_id t0)
          (t0 + e)).progress ∧
    (_refresh_ingestion_progress (start_ingestion store_id ingestion_id t0)
        (t0 + e)).progress < 16 := by
  have hns : ¬ (start_ingestion store_id ingestion_id t0).status ≠ "in_progress" := by
    simp [start_ingestion]
  have hel : t0 + e - (start_ingestion store_id ingestion_id t0).started_at = e := by
    show t0 + e - t0 = e
    ring
  unfold _refresh_ingestion_progress
  rw [if_neg hns]
  dsimp only
  rw [hel, total_time_eq, progress_points_eq]
  rw [if_neg (by linarith : ¬ (50:ℚ) ≤ e)]
  refine ⟨?_, ?_, ?_⟩
  · show (refreshSteps e (start_ingestion store_id ingestion_id t0).steps
      [8, 18, 30, 50]).map Step.status = _
    have hsteps : (start_ingestion store_id ingestion_id t0).steps = initial_steps := rfl
    rw [hsteps]
    unfold initial_steps
    simp only [refreshSteps]
    rw [if_neg (by linarith : ¬ (8:ℚ) ≤ e)]
    rfl
  · show (0:Int) ≤ min 95 (pyInt (e / 50 * 100))
    rw [pyInt_of_nonneg (by positivity)]
    refine le_min (by norm_num) (Int.floor_nonneg.mpr (by positivity))
  · show min 95 (pyInt (e / 50 * 100)) < 16
    rw [pyInt_of_nonneg (by positivity)]
    refine lt_of_le_of_lt (min_le_right _ _) ?_
    rw [Int.floor_lt]
    push_cast
    linarith

/-- C5 witness: a concrete observation inside the window. -/
theorem C5_witness :
    ((_refresh_ingestion_progress (start_ingestion "s1" "w5" 3) (3 + 6)).steps.map Step.status =
      ["in_progress", "pending", "pending", "pending"]) ∧
    0 ≤ (_refresh_ingestion_progress (start_ingestion "s1" "w5" 3) (3 + 6)).progress ∧
    (_refresh_ingestion_progress (start_ingestion "s1" "w5" 3) (3 + 6)).progress < 16 :=
  C5_early_phase "s1" "w5" 3 6 (by norm_num) (by norm_num)

/-- C5 counterexample. At elapsed 2 the observed progress is
`min(95, int(2/50*100)) = 4`, outside the claimed interval `[5, 16)`. -/
theorem C5_counterexample :
    (_refresh_ingestion_progress (start_ingestion "s1" "ing_c5" 0) 2).progress = 4 ∧
    (_refresh_ingestion_progress (start_ingestion "s1" "ing_c5" 0) 2).progress < 5 := by
  have hp : (_refresh_ingestion_progress (start_ingestion "s1" "ing_c5" 0) 2).progress = 4 := by
    have hns : ¬ (start_ingestion "s1" "ing_c5" 0).status ≠ "in_progress" := by
      simp [start_ingestion]
    unfold _refresh_ingestion_progress
    rw [if_neg hns]
    dsimp only
    rw [total_time_eq]
    rw [if_neg (by norm_num [start_ingestion] :
      ¬ (50:ℚ) ≤ (2:ℚ) - (start_ingestion "s1" "ing_c5" 0).started_at)]
    show min 95 (pyInt ((2 - (start_ingestion "s1" "ing_c5" 0).started_at) / 50 * 100)) = 4
    have hsa : (start_ingestion "s1" "ing_c5" 0).started_at = 0 := rfl
    rw [hsa, pyInt_of_nonneg (by norm_num)]
    norm_num
  exact ⟨hp, by rw [hp]; norm_num⟩

/-! ## C2: finalization -/

theorem dictGet_fold_not_mem (l : List IngAsset) (g : IngAsset → StoredAsset)
    (m : List (String × StoredAsset)) (x : String)
    (hx : ∀ a ∈ l, a.id ≠ x) :
    dictGet (l.foldl (fun acc a => dictInsert acc a.id (g a)) m) x = dictGet m x := by
  induction l generalizing m with
  | nil => rfl
  | cons b rest ih =>
    rw [List.foldl_cons]
    rw [ih _ (fun a ha => hx a (List.mem_cons_of_mem _ ha))]
    exact dictGet_dictInsert_ne _ _ _ _ (Ne.symm (hx b (List.mem_cons_self _ _)))

theorem dictGet_fold_mem (l : List IngAsset) (g : IngAsset → StoredAsset)
    (m : List (String × StoredAsset)) (a : IngAsset)
    (ha : a ∈ l) (hnd : (l.map IngAsset.id).Nodup) :
    dictGet (l.foldl (fun acc b => dictInsert acc b.id (g b)) m) a.id = some (g a) := by
  induction l generalizing m with
  | nil => cases ha
  | cons b rest ih =>
    rw [List.foldl_cons]
    rw [List.map_cons, List.nodup_cons] at hnd
    rcases List.mem_cons.mp ha with rfl | ha2
    · have hb : ∀ c ∈ rest, c.id ≠ a.id := by
        intro c hc hceq
        exact hnd.1 (hceq ▸ List.mem_map_of_mem IngAsset.id hc)
      rw [dictGet_fold_not_mem rest g _ a.id hb]
      exact dictGet_dictInsert_self _ _ _
    · exact ih _ ha2 hnd.2

theorem mem_finalize_selected (record : IngestionRecord) (g : AssetGroup)
    (a : IngAsset) (hg : g ∈ record.asset_groups) (ha : a ∈ g.assets)
    (hsel : a.id ∈ record.selected_asset_ids ∨ a.selected = true) :
    a ∈ finalize_selected record := by
  unfold finalize_selected
  rw [List.mem_flatten]
  refine ⟨g.assets.filter (fun a =>
    decide (a.id ∈ record.selected_asset_ids) || a.selected), ?_, ?_⟩
  · exact List.mem_map_of_mem _ hg
  · rw [List.mem_filter]
    refine ⟨ha, ?_⟩
    rcases hsel with h | h
    · simp [h]
    · simp [h]

theorem mem_link_store_list (links : List String) (store_id : String) :
    store_id ∈ link_store_list links store_id := by
  unfold link_store_list
  by_cases h : store_id ∈ links
  · rw [if_pos h]
    exact h
  · rw [if_neg h]
    exact List.mem_append_right _ (List.mem_singleton_self _)

/-- C2. Finalize on a known ingestion forces a terminal completed record
(status, progress 100, ETA 0, all steps completed) regardless of the
prior status; it promotes exactly the assets, across all groups, selected
by id-membership or by flag — each stored under its id with the record's
store id and the category `group_id_from_asset` derives (own category if
present, else the id prefix before the first underscore, else the default
"products"), other stored assets untouched; it links the record's store to
every known user; and it returns `"library_default"` with the promoted
count. An unknown ingestion id yields `NotFound`. -/
theorem C2_finalize (s : DataStore) (iid : String) :
    (dictGet s.ingestions iid = none → finalize_ingestion s iid = none) ∧
    (∀ record, dictGet s.ingestions iid = some record →
      ∃ s1, finalize_ingestion s iid =
          some (s1, "library_default", (finalize_selected record).length) ∧
        dictGet s1.ingestions iid = some (finalize_record record) ∧
        (finalize_record record).status = "completed" ∧
        (finalize_record record).progress = 100 ∧
        (finalize_record record).estimated_seconds_remaining = 0 ∧
        (∀ st ∈ (finalize_record record).steps, st.status = "completed") ∧
        (∀ x, (∀ a ∈ finalize_selected record, a.id ≠ x) →
          dictGet s1.assets x = dictGet s.assets x) ∧
        (∀ p ∈ s.user_store_links, ∃ ls,
          (p.1, ls) ∈ s1.user_store_links ∧ record.store_id ∈ ls) ∧
        (((finalize_selected record).map IngAsset.id).Nodup →
          ∀ g ∈ record.asset_groups, ∀ a ∈ g.assets,
            (a.id ∈ record.selected_asset_ids ∨ a.selected = true) →
            dictGet s1.assets a.id =
              some { id := a.id, name := a.name, url := a.url,
                     category := group_id_from_asset a,
                     storeId := record.store_id })) := by
  constructor
  · intro h
    unfold finalize_ingestion
    rw [h]
  · intro record h
    refine ⟨{ s with
              ingestions := dictInsert s.ingestions iid (finalize_record record)
              assets := (finalize_selected record).foldl
                          (fun m a => dictInsert m a.id (promotedAsset record a)) s.assets
              user_store_links := link_store_for_asset s.user_store_links record.store_id },
      ?_, dictGet_dictInsert_self _ _ _, rfl, rfl, rfl, ?_, ?_, ?_, ?_⟩
    · unfold finalize_ingestion
      rw [h]
      rfl
    · intro st hst
      unfold finalize_record at hst
      dsimp only at hst
      rcases List.mem_map.mp hst with ⟨x, -, rfl⟩
      rfl
    · intro x hx
      exact dictGet_fold_not_mem _ _ _ _ hx
    · intro p hp
      refine ⟨link_store_list p.2 record.store_id, ?_, mem_link_store_list _ _⟩
      have : (p.1, link_store_list p.2 record.store_id) =
          (fun q : Int × List String => (q.1, link_store_list q.2 record.store_id)) p := rfl
      rw [this]
      exact List.mem_map_of_mem _ hp
    · intro hnd g hg a ha hsel
      exact dictGet_fold_mem _ (promotedAsset record) _ a
        (mem_finalize_selected record g a hg ha hsel) hnd

/-! ## C3: status monotonicity across operation sequences -/

/-- Every step still `pending`. -/
def allPending (l : List Step) : Bool := l.all (fun s => s.status = "pending")

/-- The shape every reachable step list has: a `completed` prefix, then at
most one step in another status, then only `pending` steps. -/
def wfSteps : List Step → Bool
  | [] => true
  | s :: rest => if s.status = "completed" then wfSteps rest else allPending rest

/-- A `completed` source step stays `completed` in the target. -/
def stepCompletedLe (s t : Step) : Prop :=
  s.status = "completed" → t.status = "completed"

theorem countInProgress_cons (s : Step) (rest : List Step) :
    countInProgress (s :: rest) =
      (if s.status = "in_progress" then 1 else 0) + countInProgress rest := by
  unfold countInProgress
  rw [List.filter_cons]
  by_cases hs : s.status = "in_progress"
  · simp [hs]
    omega
  · simp [hs]

theorem countInProgress_of_allPending (l : List Step) (h : allPending l = true) :
    countInProgress l = 0 := by
  induction l with
  | nil => rfl
  | cons s rest ih =>
    simp only [allPending, List.all_cons, Bool.and_eq_true, decide_eq_true_eq] at h
    rw [countInProgress_cons, if_neg (by rw [h.1]; simp)]
    have := ih (by exact h.2)
    omega

theorem wfSteps_countInProgress (l : List Step) (h : wfSteps l = true) :
    countInProgress l ≤ 1 := by
  induction l with
  | nil => norm_num [countInProgress]
  | cons s rest ih =>
    rw [wfSteps] at h
    rw [countInProgress_cons]
    by_cases hs : s.status = "completed"
    · rw [if_pos hs] at h
      rw [if_neg (by rw [hs]; simp)]
      have := ih h
      omega
    · rw [if_neg hs] at h
      have h0 := countInProgress_of_allPending rest h
      by_cases hip : s.status = "in_progress"
      · rw [if_pos hip]
        omega
      · rw [if_neg hip]
        omega

theorem wfSteps_of_allPending (l : List Step) (h : allPending l = true) :
    wfSteps l = true := by
  cases l with
  | nil => rfl
  | cons s rest =>
    simp only [allPending, List.all_cons, Bool.and_eq_true, decide_eq_true_eq] at h
    rw [wfSteps, if_neg (by rw [h.1]; simp)]
    exact h.2

theorem refreshSteps_nil_cutoffs (e : ℚ) (l : List Step) :
    refreshSteps e l [] = l := by
  cases l <;> rfl

theorem wfSteps_refreshSteps_allPending (e : ℚ) :
    ∀ (l : List Step) (cs : List ℚ), allPending l = true →
      wfSteps (refreshSteps e l cs) = true
  | l, [], h => by
    rw [refreshSteps_nil_cutoffs]
    exact wfSteps_of_allPending l h
  | [], _ :: _, _ => rfl
  | s :: rest, c :: cs, h => by
    simp only [allPending, List.all_cons, Bool.and_eq_true, decide_eq_true_eq] at h
    rw [refreshSteps]
    by_cases hc : c ≤ e
    · rw [if_pos hc, wfSteps, if_pos rfl]
      exact wfSteps_refreshSteps_allPending e rest cs h.2
    · rw [if_neg hc, if_pos h.1, wfSteps, if_neg (by simp)]
      exact h.2

theorem wfSteps_refreshSteps (e : ℚ) :
    ∀ (l : List Step) (cs : List ℚ), wfSteps l = true →
      wfSteps (refreshSteps e l cs) = true
  | l, [], h => by
    rw [refreshSteps_nil_cutoffs]
    exact h
  | [], _ :: _, _ => rfl
  | s :: rest, c :: cs, h => by
    rw [wfSteps] at h
    rw [refreshSteps]
    by_cases hs : s.status = "completed"
    · rw [if_pos hs] at h
      by_cases hc : c ≤ e
      · rw [if_pos hc, wfSteps, if_pos rfl]
        exact wfSteps_refreshSteps e rest cs h
      · rw [if_neg hc, if_neg (by rw [hs]; simp), wfSteps, if_pos hs]
        exact h
    · rw [if_neg hs] at h
      by_cases hc : c ≤ e
      · rw [if_pos hc, wfSteps, if_pos rfl]
        exact wfSteps_refreshSteps_allPending e rest cs h
      · rw [if_neg hc]
        by_cases hp : s.status = "pending"
        · rw [if_pos hp, wfSteps, if_neg (by simp)]
          exact h
        · rw [if_neg hp, wfSteps, if_neg hs]
          exact h

theorem allPending_cancel_map (l : List Step) (h : allPending l = true) :
    allPending (l.map (fun s =>
      if s.status = "in_progress" then { s with status := "canceled" } else s)) = true := by
  induction l with
  | nil => rfl
  | cons s rest ih =>
    simp only [allPending, List.all_cons, Bool.and_eq_true, decide_eq_true_eq] at h
    rw [List.map_cons]
    simp only [allPending, List.all_cons, Bool.and_eq_true, decide_eq_true_eq]
    refine ⟨?_, ih h.2⟩
    rw [if_neg (by rw [h.1]; simp)]
    exact h.1

theorem wfSteps_cancel_map (l : List Step) (h : wfSteps l = true) :
    wfSteps (l.map (fun s =>
      if s.status = "in_progress" then { s with status := "canceled" } else s)) = true := by
  induction l with
  | nil => rfl
  | cons s rest ih =>
    rw [wfSteps] at h
    rw [List.map_cons]
    by_cases hs : s.status = "completed"
    · rw [if_pos hs] at h
      rw [show (if s.status = "in_progress" then { s with status := "canceled" } else s) = s
        from if_neg (by rw [hs]; simp)]
      rw [wfSteps, if_pos hs]
      exact ih h
    · rw [if_neg hs] at h
      by_cases hip : s.status = "in_progress"
      · rw [wfSteps, if_pos hip, if_neg (by simp)]
        exact allPending_cancel_map rest h
      · rw [wfSteps, if_neg hip, if_neg hs]
        exact allPending_cancel_map rest h

theorem wfSteps_complete_map (l : List Step) :
    wfSteps (l.map (fun s => { s with status := "completed" })) = true := by
  induction l with
  | nil => rfl
  | cons s rest ih =>
    rw [List.map_cons, wfSteps, if_pos rfl]
    exact ih

theorem wfSteps_applyOp (record : IngestionRecord) (op : Op)
    (h : wfSteps record.steps = true) : wfSteps (applyOp record op).steps = true := by
  cases op with
  | recompute now =>
    show wfSteps (_refresh_ingestion_progress record now).steps = true
    unfold _refresh_ingestion_progress
    by_cases hs : record.status ≠ "in_progress"
    · rw [if_pos hs]
      exact h
    · rw [if_neg hs]
      dsimp only
      by_cases ht : total_time ≤ now - record.started_at
      · rw [if_pos ht]
        exact wfSteps_complete_map _
      · rw [if_neg ht]
        exact wfSteps_refreshSteps _ _ _ h
  | cancel => exact wfSteps_cancel_map record.steps h
  | select ids => exact h
  | finalize => exact wfSteps_complete_map record.steps

theorem wfSteps_applyOps (ops : List Op) (record : IngestionRecord)
    (h : wfSteps record.steps = true) : wfSteps (applyOps record ops).steps = true := by
  induction ops generalizing record with
  | nil => exact h
  | cons op rest ih => exact ih _ (wfSteps_applyOp record op h)

theorem status_applyOp (record : IngestionRecord) (op : Op)
    (h : (applyOp record op).status = "in_progress") :
    record.status = "in_progress" := by
  cases op with
  | recompute now =>
    by_cases hs : record.status = "in_progress"
    · exact hs
    · rw [show applyOp record (Op.recompute now) = record
        from refresh_frozen record now hs] at h
      exact h
  | cancel => simp [applyOp, cancel_record] at h
  | select ids => exact h
  | finalize => simp [applyOp, finalize_record] at h

theorem status_applyOps (ops : List Op) (record : IngestionRecord)
    (h : (applyOps record ops).status = "in_progress") :
    record.status = "in_progress" := by
  induction ops generalizing record with
  | nil => exact h
  | cons op rest ih => exact status_applyOp record op (ih (applyOp record op) h)

theorem forall2_impl_refl (l : List Step) :
    List.Forall₂ stepCompletedLe l l :=
  List.forall₂_same.mpr (fun _ _ => id)

theorem forall2_impl_map (l : List Step) (f : Step → Step)
    (hf : ∀ s : Step, s.status = "completed" → (f s).status = "completed") :
    List.Forall₂ stepCompletedLe l (l.map f) := by
  induction l with
  | nil => exact List.Forall₂.nil
  | cons s rest ih => exact List.Forall₂.cons (hf s) ih

theorem forall2_impl_trans {a b c : List Step}
    (h1 : List.Forall₂ stepCompletedLe a b)
    (h2 : List.Forall₂ stepCompletedLe b c) :
    List.Forall₂ stepCompletedLe a c := by
  induction h1 generalizing c with
  | nil =>
    cases h2
    exact List.Forall₂.nil
  | cons hst hrest ih =>
    cases h2 with
    | cons hst2 hrest2 => exact List.Forall₂.cons (fun hx => hst2 (hst hx)) (ih hrest2)

theorem refreshSteps_completed_persist (e : ℚ) :
    ∀ (l : List Step) (cs : List ℚ),
      List.Forall₂ stepCompletedLe l (refreshSteps e l cs)
  | l, [] => by
    rw [refreshSteps_nil_cutoffs]
    exact forall2_impl_refl l
  | [], _ :: _ => List.Forall₂.nil
  | s :: rest, c :: cs => by
    rw [refreshSteps]
    by_cases hc : c ≤ e
    · rw [if_pos hc]
      exact List.Forall₂.cons (fun _ => rfl) (refreshSteps_completed_persist e rest cs)
    · rw [if_neg hc]
      by_cases hp : s.status = "pending"
      · rw [if_pos hp]
        refine List.Forall₂.cons (fun hcc => ?_) (forall2_impl_refl rest)
        rw [hp] at hcc
        simp at hcc
      · rw [if_neg hp]
        exact List.Forall₂.cons id (forall2_impl_refl rest)

theorem completed_persist_applyOp (record : IngestionRecord) (op : Op) :
    List.Forall₂ stepCompletedLe record.steps (applyOp record op).steps := by
  cases op with
  | recompute now =>
    show List.Forall₂ stepCompletedLe record.steps
      (_refresh_ingestion_progress record now).steps
    unfold _refresh_ingestion_progress
    by_cases hs : record.status ≠ "in_progress"
    · rw [if_pos hs]
      exact forall2_impl_refl _
    · rw [if_neg hs]
      dsimp only
      by_cases ht : total_time ≤ now - record.started_at
      · rw [if_pos ht]
        exact forall2_impl_trans (refreshSteps_completed_persist _ _ _)
          (forall2_impl_map _ _ (fun s _ => rfl))
      · rw [if_neg ht]
        exact refreshSteps_completed_persist _ _ _
  | cancel =>
    exact forall2_impl_map _ _ (fun s hsc => by
      rw [show (if s.status = "in_progress" then { s with status := "canceled" } else s) = s
        from if_neg (by rw [hsc]; simp)]
      exact hsc)
  | select ids => exact forall2_impl_refl _
  | finalize => exact forall2_impl_map _ _ (fun s _ => rfl)

theorem completed_persist_applyOps (ops : List Op) (record : IngestionRecord) :
    List.Forall₂ stepCompletedLe record.steps (applyOps record ops).steps := by
  induction ops generalizing record with
  | nil => exact forall2_impl_refl _
  | cons op rest ih =>
    exact forall2_impl_trans (completed_persist_applyOp record op) (ih (applyOp record op))

/-- C3 (amended). Across every sequence of recompute, cancel, selection and
finalize operations: at most one step of a started record is `in_progress`
at a time; the overall status never returns to `in_progress` once it has
left it; recompute is a no-op on any record that is not `in_progress` (so
a canceled record is frozen against recomputation); and a `completed` step
never reverts. The claim's stronger reading — that the overall status
"never changes again" and canceled steps are permanent — fails, because
`cancel_ingestion` flips even a completed record to `canceled` (capping
progress at 80) and `finalize_ingestion` forces a canceled record and its
steps to `completed` (see the counterexample). -/
theorem C3_status_machine :
    (∀ (store_id ingestion_id : String) (t0 : ℚ) (ops : List Op),
      countInProgress (applyOps (start_ingestion store_id ingestion_id t0) ops).steps ≤ 1) ∧
    (∀ (record : IngestionRecord) (ops : List Op),
      (applyOps record ops).status = "in_progress" → record.status = "in_progress") ∧
    (∀ (record : IngestionRecord) (now : ℚ), record.status ≠ "in_progress" →
      _refresh_ingestion_progress record now = record) ∧
    (∀ (record : IngestionRecord) (ops : List Op),
      List.Forall₂ stepCompletedLe record.steps (applyOps record ops).steps) := by
  refine ⟨?_, ?_, ?_, ?_⟩
  · intro store_id ingestion_id t0 ops
    refine wfSteps_countInProgress _ (wfSteps_applyOps ops _ ?_)
    show wfSteps initial_steps = true
    decide
  · intro record ops h
    exact status_applyOps ops record h
  · intro record now h
    exact refresh_frozen record now h
  · intro record ops
    exact completed_persist_applyOps ops record

/-- C3 counterexample. A record completed by recomputation at elapsed 60 is
flipped back by `cancel_ingestion`: its overall status changes again after
leaving `in_progress` (`completed` to `canceled`) and its progress drops
from 100 to 80. -/
theorem C3_counterexample :
    (_refresh_ingestion_progress (start_ingestion "s1" "ing_c3" 0) 60).status = "completed" ∧
    (cancel_record (_refresh_ingestion_progress (start_ingestion "s1" "ing_c3" 0) 60)).status
      = "canceled" ∧
    (cancel_record (_refresh_ingestion_progress (start_ingestion "s1" "ing_c3" 0) 60)).progress
      = 80 := by
  have hr : (_refresh_ingestion_progress (start_ingestion "s1" "ing_c3" 0) 60).status
        = "completed" ∧
      (_refresh_ingestion_progress (start_ingestion "s1" "ing_c3" 0) 60).progress = 100 := by
    have hns : ¬ (start_ingestion "s1" "ing_c3" 0).status ≠ "in_progress" := by
      simp [start_ingestion]
    unfold _refresh_ingestion_progress
    rw [if_neg hns]
    dsimp only
    rw [total_time_eq]
    rw [if_pos (by norm_num [start_ingestion] :
      (50:ℚ) ≤ (60:ℚ) - (start_ingestion "s1" "ing_c3" 0).started_at)]
    exact ⟨rfl, rfl⟩
  refine ⟨hr.1, rfl, ?_⟩
  show min (_refresh_ingestion_progress (start_ingestion "s1" "ing_c3" 0) 60).progress 80 = 80
  rw [hr.2]
  decide

end MyShop
